import Mathlib

/-!
Verification development for the `psat-ligo-planning` alert-ingestion pipeline
(`gp_alerts_to_db.py`).

The Python code is shallowly embedded:
* JSON/YAML scalars and containers become the inductive `JVal`; Python floats
  are modelled as exact rationals (`ℚ`); Python dicts become association lists
  with unique keys, with `setKey` mirroring `d[k] = v` (update in place, else
  append) and `removeKey` mirroring `d.pop(k)`.
* Each block of the `plugin` flattening code (lines 66-119 of
  `gp_alerts_to_db.py`) becomes one definition (`alertStep`, `eventStep`,
  `extraStep`, `headerStep`, `farClean`, `timeClean`, `sigClean`, `mapStep`),
  composed by `flatten`.  An uncaught Python exception is modelled as `none`.
* The SQL `events` view (lines 163-212) and the per-partition export queries
  (lines 300-334) are translated into list-processing functions over an
  `AlertRow` table.
-/

namespace GpAlerts

/-- A JSON/YAML-style value as handled by the Python code.  Numbers are
modelled as exact rationals. -/
inductive JVal where
  | str (s : String)
  | num (q : ℚ)
  | bool (b : Bool)
  | null
  | list (l : List JVal)
  | dict (d : List (String × JVal))

/-- A Python dict from string keys to values (association list, unique keys,
insertion order preserved). -/
abbrev FlatDict := List (String × JVal)

/-- `isinstance(v, dict)` -/
def isDict : JVal → Bool
  | .dict _ => true
  | _ => false

/-- `isinstance(v, list)` -/
def isList : JVal → Bool
  | .list _ => true
  | _ => false

/-- Python truthiness (`if v:`). -/
def truthy : JVal → Bool
  | .str s => s != ""
  | .num q => q != 0
  | .bool b => b
  | .null => false
  | .list l => !l.isEmpty
  | .dict d => !d.isEmpty

/-- `d[k]` / `d.get(k)`: first (only) binding of `k`. -/
def lookup (d : FlatDict) (k : String) : Option JVal :=
  match d with
  | [] => none
  | (k', v) :: rest => if k' = k then some v else lookup rest k

/-- `d[k] = v`: update the existing binding in place, else append. -/
def setKey (d : FlatDict) (k : String) (v : JVal) : FlatDict :=
  match d with
  | [] => [(k, v)]
  | (k', v') :: rest => if k' = k then (k, v) :: rest else (k', v') :: setKey rest k v

/-- `d.pop(k)` (the binding removed; on dicts keys are unique, so removing
every binding of `k` is the same operation). -/
def removeKey (d : FlatDict) (k : String) : FlatDict :=
  match d with
  | [] => []
  | (k', v') :: rest => if k' = k then removeKey rest k else (k', v') :: removeKey rest k

theorem lookup_setKey_self (d : FlatDict) (k : String) (v : JVal) :
    lookup (setKey d k v) k = some v := by
  induction d with
  | nil => simp [setKey, lookup]
  | cons p rest ih =>
    obtain ⟨k', v'⟩ := p
    by_cases h : k' = k <;> simp [setKey, lookup, h, ih]

theorem lookup_setKey_ne (d : FlatDict) {k k' : String} (v : JVal) (h : k' ≠ k) :
    lookup (setKey d k' v) k = lookup d k := by
  induction d with
  | nil => simp [setKey, lookup, h]
  | cons p rest ih =>
    obtain ⟨k₀, v₀⟩ := p
    by_cases h0 : k₀ = k'
    · subst h0; simp [setKey, lookup, h, Ne.symm h]
    · by_cases h1 : k₀ = k <;> simp [setKey, lookup, h0, h1, ih, Ne.symm h]

theorem lookup_removeKey_self (d : FlatDict) (k : String) :
    lookup (removeKey d k) k = none := by
  induction d with
  | nil => rfl
  | cons p rest ih =>
    obtain ⟨k', v'⟩ := p
    by_cases h : k' = k <;> simp [removeKey, lookup, h, ih]

theorem lookup_removeKey_ne (d : FlatDict) {k k' : String} (h : k' ≠ k) :
    lookup (removeKey d k') k = lookup d k := by
  induction d with
  | nil => rfl
  | cons p rest ih =>
    obtain ⟨k₀, v₀⟩ := p
    by_cases h0 : k₀ = k'
    · subst h0; simp [removeKey, lookup, h, Ne.symm h, ih]
    · by_cases h1 : k₀ = k <;> simp [removeKey, lookup, h0, h1, h, Ne.symm h, ih]

theorem lookup_mem {d : FlatDict} {k : String} {v : JVal} (h : lookup d k = some v) :
    (k, v) ∈ d := by
  induction d with
  | nil => simp [lookup] at h
  | cons p rest ih =>
    obtain ⟨k', v'⟩ := p
    by_cases h0 : k' = k
    · subst h0; simp [lookup] at h; simp [h]
    · simp [lookup, h0] at h
      exact List.mem_cons_of_mem _ (ih h)

theorem mem_setKey {d : FlatDict} {k : String} {v : JVal} {p : String × JVal}
    (h : p ∈ setKey d k v) : p ∈ d ∨ p = (k, v) := by
  induction d with
  | nil => simp [setKey] at h; simp [h]
  | cons q rest ih =>
    obtain ⟨k', v'⟩ := q
    by_cases h0 : k' = k
    · subst h0
      simp [setKey] at h
      rcases h with h | h
      · right; simp [h]
      · left; simp [h]
    · simp [setKey, h0] at h
      rcases h with h | h
      · left; simp [h]
      · rcases ih h with h1 | h1
        · left; simp [h1]
        · right; exact h1

theorem mem_removeKey {d : FlatDict} {k : String} {p : String × JVal}
    (h : p ∈ removeKey d k) : p ∈ d := by
  induction d with
  | nil => simp [removeKey] at h
  | cons q rest ih =>
    obtain ⟨k', v'⟩ := q
    by_cases h0 : k' = k
    · simp [removeKey, h0] at h
      exact List.mem_cons_of_mem _ (ih h)
    · simp [removeKey, h0] at h
      rcases h with h | h
      · simp [h]
      · exact List.mem_cons_of_mem _ (ih h)

/-- ASCII lower-casing of one character (`str.lower()`; the keys handled
here are ASCII). -/
def lowerChar (c : Char) : Char :=
  if 65 ≤ c.toNat ∧ c.toNat ≤ 90 then Char.ofNat (c.toNat + 32) else c

/-- Python `str.lower()` (ASCII). -/
def lowerStr (s : String) : String := String.mk (s.data.map lowerChar)

/-- ASCII upper-casing of one character (`str.upper()`). -/
def upperChar (c : Char) : Char :=
  if 97 ≤ c.toNat ∧ c.toNat ≤ 122 then Char.ofNat (c.toNat - 32) else c

/-- Python `str.upper()` (ASCII). -/
def upperStr (s : String) : String := String.mk (s.data.map upperChar)

/-! ### The metadata flattener (`plugin`, lines 66-119) -/

/-- Lines 68-70: copy every non-dict field of `ALERT`, key lower-cased. -/
def alertStep (alert : List (String × JVal)) (d : FlatDict) : FlatDict :=
  alert.foldl (fun acc p => if isDict p.2 then acc else setKey acc (lowerStr p.1) p.2) d

/-- Lines 75-78: copy every non-dict field of `classification`, key
`class_`-prefixed and lower-cased.  `.items()` on a truthy non-dict raises
(modelled as `none`). -/
def classStep (ev : List (String × JVal)) (d : FlatDict) : Option FlatDict :=
  match lookup ev "classification" with
  | none => some d
  | some c =>
    if truthy c then
      match c with
      | .dict cm =>
        some (cm.foldl (fun acc p =>
          if isDict p.2 then acc else setKey acc (lowerStr ("class_" ++ p.1)) p.2) d)
      | _ => none
    else some d

/-- Lines 79-82: copy every non-dict field of `properties`, key
`prop_`-prefixed and lower-cased. -/
def propStep (ev : List (String × JVal)) (d : FlatDict) : Option FlatDict :=
  match lookup ev "properties" with
  | none => some d
  | some c =>
    if truthy c then
      match c with
      | .dict pm =>
        some (pm.foldl (fun acc p =>
          if isDict p.2 then acc else setKey acc (lowerStr ("prop_" ++ p.1)) p.2) d)
      | _ => none
    else some d

/-- Lines 71-82: if `ALERT.event` is present and truthy, copy its non-dict,
non-list fields (key lower-cased), then the classification and properties
sub-mappings. -/
def eventStep (alert : List (String × JVal)) (d : FlatDict) : Option FlatDict :=
  match lookup alert "event" with
  | none => some d
  | some ev =>
    if truthy ev then
      match ev with
      | .dict e =>
        let d1 := e.foldl (fun acc p =>
          if isDict p.2 || isList p.2 then acc else setKey acc (lowerStr p.1) p.2) d
        match classStep e d1 with
        | none => none
        | some d2 => propStep e d2
      | _ => none
    else some d

/-- Python `str.split()`: split on whitespace runs, no empty tokens. -/
def pySplitWs (s : String) : List String :=
  (s.split Char.isWhitespace).filter (fun t => t != "")

/-- Lines 83-88: if `EXTRA` is present and truthy, copy its non-dict fields
(key lower-cased), then read `EXTRA['central coordinate']["equatorial"]`,
split it on whitespace and store the first two tokens as `ra_centre` and
`dec_centre`.  A missing sub-field, a non-dict/non-string intermediate value
or fewer than two tokens raises an uncaught exception (`none`). -/
def extraStep (meta : List (String × JVal)) (d : FlatDict) : Option FlatDict :=
  match lookup meta "EXTRA" with
  | none => some d
  | some ex =>
    if truthy ex then
      match ex with
      | .dict e =>
        let d1 := e.foldl (fun acc p =>
          if isDict p.2 then acc else setKey acc (lowerStr p.1) p.2) d
        match lookup e "central coordinate" with
        | some (.dict cc) =>
          match lookup cc "equatorial" with
          | some (.str s) =>
            match pySplitWs s with
            | t0 :: t1 :: _ =>
              some (setKey (setKey d1 "ra_centre" (.str t0)) "dec_centre" (.str t1))
            | _ => none
          | _ => none
        | _ => none
      | _ => none
    else some d

/-- Line 91: the fixed HEADER allow-list. -/
def allowList : List String :=
  ["CREATOR", "DATE-OBS", "DISTMEAN", "DISTSTD", "LOGBCI", "LOGBSN", "MJD-OBS"]

/-- Lines 92-94: copy a HEADER field (key lower-cased) iff its value is not a
dict and its key is literally in the allow-list (`k in allowList`). -/
def headerStep (hdr : List (String × JVal)) (d : FlatDict) : FlatDict :=
  hdr.foldl (fun acc p =>
    if !isDict p.2 && allowList.contains p.1 then setKey acc (lowerStr p.1) p.2 else acc) d

/-- Lines 90-94: the HEADER block with its presence/truthiness gate. -/
def headerGate (meta : List (String × JVal)) (d : FlatDict) : Option FlatDict :=
  match lookup meta "HEADER" with
  | none => some d
  | some h =>
    if truthy h then
      match h with
      | .dict hm => some (headerStep hm d)
      | _ => none
    else some d

/-! ### Numeric helpers (`float(...)`, `f"{x:0.2f}"`) -/

/-- Numeric value of an ASCII digit. -/
def digitVal (c : Char) : ℕ := c.toNat - 48

/-- Value of a digit string, most significant first. -/
def digitsToNat (ds : List Char) : ℕ := ds.foldl (fun a c => a * 10 + digitVal c) 0

/-- Exponent tail of a Python float literal (after `e`/`E`). -/
def parseDecExp (sgn mant : ℚ) (re : List Char) : Option ℚ :=
  let se : ℤ × List Char :=
    match re with
    | '+' :: r => (1, r)
    | '-' :: r => (-1, r)
    | r => (1, r)
  let ed := se.2.takeWhile Char.isDigit
  let re2 := se.2.dropWhile Char.isDigit
  if ed.isEmpty then none
  else
    match re2 with
    | [] => some (sgn * mant * (10 : ℚ) ^ (se.1 * (digitsToNat ed : ℤ)))
    | _ => none

/-- A finite Python float literal: optional sign, digits with optional
fractional part, optional exponent.  (`inf`/`nan` and digit-group
underscores are not modelled; floats are exact rationals here.) -/
def parseDecCore (cs : List Char) : Option ℚ :=
  let sc : ℚ × List Char :=
    match cs with
    | '+' :: r => (1, r)
    | '-' :: r => (-1, r)
    | r => (1, r)
  let ip := sc.2.takeWhile Char.isDigit
  let r1 := sc.2.dropWhile Char.isDigit
  let fr : List Char × List Char :=
    match r1 with
    | '.' :: rf => (rf.takeWhile Char.isDigit, rf.dropWhile Char.isDigit)
    | _ => ([], r1)
  if ip.isEmpty && fr.1.isEmpty then none
  else
    let mant : ℚ := (digitsToNat ip : ℚ) + (digitsToNat fr.1 : ℚ) / (10 : ℚ) ^ fr.1.length
    match fr.2 with
    | [] => some (sc.1 * mant)
    | 'e' :: re => parseDecExp sc.1 mant re
    | 'E' :: re => parseDecExp sc.1 mant re
    | _ => none

/-- Python `float(v)`: numbers and bools coerce, numeric strings parse,
anything else raises (`none`). -/
def pyFloat : JVal → Option ℚ
  | .num q => some q
  | .bool b => some (if b then 1 else 0)
  | .str s => parseDecCore s.trim.data
  | _ => none

/-- `float(f"{x:0.2f}")`: round to two decimal places.  (The source rounds
half-to-even on a binary double; on exact rationals we use `round`, which
only differs on exact ties.) -/
def round2 (q : ℚ) : ℚ := (round (100 * q) : ℤ) / 100

/-- Lines 96-99: pop `far` into `far_hz` and derive
`far_years = round(1 / (far_hz * 60 * 60 * 24), 2)`.  An unparseable value
(`float` raises) or a zero rate (`ZeroDivisionError`) aborts (`none`). -/
def farClean (d : FlatDict) : Option FlatDict :=
  match lookup d "far" with
  | none => some d
  | some v =>
    let d1 := setKey (removeKey d "far") "far_hz" v
    match pyFloat v with
    | none => none
    | some q =>
      if q = 0 then none
      else some (setKey d1 "far_years" (.num (round2 (1 / (q * (60 * 60 * 24))))))

/-! ### Datetime helpers (`datetime.strptime`, timedelta subtraction) -/

/-- Read at most `n` leading ASCII digits. -/
def takeDigits : ℕ → List Char → List Char × List Char
  | 0, cs => ([], cs)
  | _ + 1, [] => ([], [])
  | n + 1, c :: rest =>
    if c.isDigit then
      let dr := takeDigits n rest
      (c :: dr.1, dr.2)
    else ([], c :: rest)

/-- `%Y`: exactly four digits. -/
def parseFixed4 (cs : List Char) : Option (ℕ × List Char) :=
  let dr := takeDigits 4 cs
  if dr.1.length = 4 then some (digitsToNat dr.1, dr.2) else none

/-- `%m`/`%d`/`%H`/`%M`/`%S`: one or two digits (range-checked later). -/
def parseUpTo2 (cs : List Char) : Option (ℕ × List Char) :=
  let dr := takeDigits 2 cs
  if dr.1.isEmpty then none else some (digitsToNat dr.1, dr.2)

/-- Consume one expected literal character. -/
def expectChar (c : Char) : List Char → Option (List Char)
  | x :: rest => if x = c then some rest else none
  | [] => none

def isLeapYear (y : ℕ) : Bool := (y % 4 == 0 && y % 100 != 0) || (y % 400 == 0)

def daysInMonth (y m : ℕ) : ℕ :=
  if m = 2 then (if isLeapYear y then 29 else 28)
  else if m = 4 ∨ m = 6 ∨ m = 9 ∨ m = 11 then 30 else 31

/-- Days from 1970-01-01 to year/month/day (proleptic Gregorian; the
standard civil-calendar counting used by `datetime`'s ordinal). -/
def daysFromCivil (y m d : ℤ) : ℤ :=
  let y' := if m ≤ 2 then y - 1 else y
  let era := (if 0 ≤ y' then y' else y' - 399) / 400
  let yoe := y' - era * 400
  let mp := (m + 9) % 12
  let doy := (153 * mp + 2) / 5 + d - 1
  let doe := yoe * 365 + yoe / 4 - yoe / 100 + doy
  era * 146097 + doe - 719468

/-- A naive `datetime` as seconds from the epoch. -/
def epochSec (y mo dy h mi s : ℕ) : ℤ :=
  daysFromCivil (y : ℤ) (mo : ℤ) (dy : ℤ) * 86400 + ((h * 3600 + mi * 60 + s : ℕ) : ℤ)

/-- The common `YYYY-MM-DDTHH:MM:SS` prefix of both `strptime` formats,
validated the way `strptime` + the `datetime` constructor validate it. -/
def parseDateTimeCore (cs : List Char) : Option (ℤ × List Char) := do
  let (y, cs) ← parseFixed4 cs
  let cs ← expectChar '-' cs
  let (mo, cs) ← parseUpTo2 cs
  let cs ← expectChar '-' cs
  let (dy, cs) ← parseUpTo2 cs
  let cs ← expectChar 'T' cs
  let (h, cs) ← parseUpTo2 cs
  let cs ← expectChar ':' cs
  let (mi, cs) ← parseUpTo2 cs
  let cs ← expectChar ':' cs
  let (sec, cs) ← parseUpTo2 cs
  if 1 ≤ y ∧ y ≤ 9999 ∧ 1 ≤ mo ∧ mo ≤ 12 ∧ 1 ≤ dy ∧ dy ≤ daysInMonth y mo ∧
      h ≤ 23 ∧ mi ≤ 59 ∧ sec ≤ 59 then
    some (epochSec y mo dy h mi sec, cs)
  else none

/-- `datetime.strptime(s, '%Y-%m-%dT%H:%M:%SZ')`, as epoch seconds. -/
def pyStrptimeZ (s : String) : Option ℤ :=
  match parseDateTimeCore s.data with
  | some (t, cs) =>
    match expectChar 'Z' cs with
    | some [] => some t
    | _ => none
  | none => none

/-- `datetime.strptime(s, '%Y-%m-%dT%H:%M:%S.%fZ')`: epoch seconds plus the
microseconds (`%f` is one to six digits, right-padded with zeros). -/
def pyStrptimeFZ (s : String) : Option (ℤ × ℤ) :=
  match parseDateTimeCore s.data with
  | some (t, cs) =>
    match expectChar '.' cs with
    | some cs1 =>
      let dr := takeDigits 6 cs1
      if dr.1.isEmpty then none
      else
        match expectChar 'Z' dr.2 with
        | some [] => some (t, ((digitsToNat dr.1 * 10 ^ (6 - dr.1.length) : ℕ) : ℤ))
        | _ => none
    | none => none
  | none => none

/-- `int((dt1 - dt2).seconds)`: the seconds component of the normalised
`timedelta`, i.e. the signed microsecond difference reduced modulo one day
and floor-divided back to seconds. -/
def deltaSeconds (t1 t2s t2us : ℤ) : ℤ :=
  ((t1 * 1000000 - (t2s * 1000000 + t2us)) % 86400000000) / 1000000

/-- `strptime(..., '%Y-%m-%dT%H:%M:%SZ')` applied to a dict value: a
non-string raises `TypeError`, which the bare `except` swallows. -/
def pyParseAlertTime : JVal → Option ℤ
  | .str s => pyStrptimeZ s
  | _ => none

/-- `strptime(..., '%Y-%m-%dT%H:%M:%S.%fZ')` applied to a dict value. -/
def pyParseEventTime : JVal → Option (ℤ × ℤ)
  | .str s => pyStrptimeFZ s
  | _ => none

/-- Lines 100-109: pop `time_created` into `alert_time`; if a `time` field is
present, try to parse both timestamps and store `int(delta.seconds)` as
`alert_delta_sec` (any failure silently skipped), then pop `time`. -/
def timeClean (d : FlatDict) : FlatDict :=
  match lookup d "time_created" with
  | none => d
  | some v =>
    let d1 := setKey (removeKey d "time_created") "alert_time" v
    match lookup d1 "time" with
    | none => d1
    | some w =>
      let d2 :=
        match pyParseAlertTime v, pyParseEventTime w with
        | some t1, some t2 => setKey d1 "alert_delta_sec" (.num ((deltaSeconds t1 t2.1 t2.2 : ℤ) : ℚ))
        | _, _ => d1
      removeKey d2 "time"

/-- Lines 111-115: coerce a present `significant` to integer 1/0 by
truthiness. -/
def sigClean (d : FlatDict) : FlatDict :=
  match lookup d "significant" with
  | none => d
  | some v => setKey d "significant" (.num (if truthy v then 1 else 0))

/-! ### The `map` field (`os.path.splitext`, lines 117-119) -/

/-- Index of the last occurrence of `c` in `cs` (−1 if absent), as in
`str.rfind`. -/
def lastIdx (cs : List Char) (c : Char) : ℤ :=
  cs.enum.foldl (fun acc p => if p.2 = c then (p.1 : ℤ) else acc) (-1)

/-- `os.path.splitext(f)[1]`: the extension starts at the last dot after the
last path separator, provided some earlier character of the basename is not a
dot (leading dots are not extensions). -/
def extOf (f : String) : String :=
  let cs := f.data
  let sepIdx := lastIdx cs '/'
  let dotIdx := lastIdx cs '.'
  if decide (sepIdx < dotIdx) &&
      cs.enum.any (fun p => decide (sepIdx < (p.1 : ℤ)) && decide ((p.1 : ℤ) < dotIdx) && p.2 != '.') then
    String.mk (cs.drop dotIdx.toNat)
  else ""

/-- Lines 117-119: every file whose extension is exactly `.fits` overwrites
`map`; the last such file wins. -/
def mapStep (files : List String) (d : FlatDict) : FlatDict :=
  files.foldl (fun acc f => if extOf f = ".fits" then setKey acc "map" (.str f) else acc) d

/-- The full flattener, lines 66-119 of `plugin`: the `ALERT` section (a
missing or non-dict `ALERT` raises), the `event` section, `EXTRA`, `HEADER`,
then the cleaning steps and the `map` scan.  `none` models an uncaught
exception aborting the ingestion. -/
def flatten (meta : List (String × JVal)) (files : List String) : Option FlatDict :=
  match lookup meta "ALERT" with
  | some (.dict alert) =>
    match eventStep alert (alertStep alert []) with
    | none => none
    | some d1 =>
      match extraStep meta d1 with
      | none => none
      | some d2 =>
        match headerGate meta d2 with
        | none => none
        | some d3 =>
          match farClean d3 with
          | none => none
          | some d4 => some (mapStep files (sigClean (timeClean d4)))
  | _ => none

/-! ### The `alerts` table and the `events` view (lines 121-218) -/

/-- One row of the `alerts` table (columns of the `CREATE TABLE` statement,
lines 121-155; every column except the id is nullable).  Datetimes are
modelled as integers, doubles as rationals. -/
structure AlertRow where
  superevent_id : String
  significant : Option ℤ
  alert_type : Option String
  alert_time : Option ℤ
  alert_delta_sec : Option ℤ
  date_obs : Option ℤ
  mjd_obs : Option ℚ
  far_hz : Option ℚ
  far_years : Option ℚ
  distmean : Option ℚ
  diststd : Option ℚ
  class_bbh : Option ℚ
  class_bns : Option ℚ
  class_nsbh : Option ℚ
  class_terrestrial : Option ℚ
  prop_hasns : Option ℚ
  prop_hasremnant : Option ℚ
  prop_hasmassgap : Option ℚ
  area10 : Option ℚ
  area50 : Option ℚ
  area90 : Option ℚ
  creator : Option String
  ra_centre : Option ℚ
  dec_centre : Option ℚ
  grp : Option String
  logbci : Option ℚ
  logbsn : Option ℚ
  pipeline : Option String
  search : Option String
  map : Option String
  dateAdded : Option ℤ
  dateLastModified : Option ℤ
deriving DecidableEq

/-- One row of the `events` view (lines 163-185): identifying and timing
columns from the sub-select `a`, `significant` and the substantive science
columns from the sub-select `b`. -/
structure EventRow where
  superevent_id : String
  significant : Option ℤ
  latest_alert : Option String
  alert_time : Option ℤ
  alert_delta_sec : Option ℤ
  date_obs : Option ℤ
  mjd_obs : Option ℚ
  far_hz : Option ℚ
  far_years : Option ℚ
  distmean : Option ℚ
  diststd : Option ℚ
  class_bbh : Option ℚ
  class_bns : Option ℚ
  class_nsbh : Option ℚ
  class_terrestrial : Option ℚ
  prop_hasns : Option ℚ
  prop_hasremnant : Option ℚ
  prop_hasmassgap : Option ℚ
  area10 : Option ℚ
  area50 : Option ℚ
  area90 : Option ℚ
deriving DecidableEq

/-- The view's SELECT list: `a` supplies the id, `alert_type AS latest_alert`,
`alert_time` and `alert_delta_sec`; `b` supplies `significant` and the
science columns. -/
def mkEventRow (a b : AlertRow) : EventRow :=
  { superevent_id := a.superevent_id
    significant := b.significant
    latest_alert := a.alert_type
    alert_time := a.alert_time
    alert_delta_sec := a.alert_delta_sec
    date_obs := b.date_obs
    mjd_obs := b.mjd_obs
    far_hz := b.far_hz
    far_years := b.far_years
    distmean := b.distmean
    diststd := b.diststd
    class_bbh := b.class_bbh
    class_bns := b.class_bns
    class_nsbh := b.class_nsbh
    class_terrestrial := b.class_terrestrial
    prop_hasns := b.prop_hasns
    prop_hasremnant := b.prop_hasremnant
    prop_hasmassgap := b.prop_hasmassgap
    area10 := b.area10
    area50 := b.area50
    area90 := b.area90 }

/-- SQL `MAX` over a list of values (`none` on the empty list, i.e. SQL
`NULL`). -/
def maxOf : List ℤ → Option ℤ
  | [] => none
  | x :: xs =>
    match maxOf xs with
    | none => some x
    | some m => some (max x m)

/-- The non-`NULL` `alert_time`s of the rows of a given superevent (SQL `MAX`
ignores `NULL`s). -/
def sidTimes (t : List AlertRow) (s : String) : List ℤ :=
  t.filterMap (fun r => if r.superevent_id = s then r.alert_time else none)

/-- `MAX(alert_time) ... GROUP BY superevent_id` for one group. -/
def maxTime (t : List AlertRow) (s : String) : Option ℤ := maxOf (sidTimes t s)

/-- SQL `alert_type != 'RETRACTION'`: `NULL` compares unknown, so a `NULL`
type is filtered out too. -/
def isNonRetraction (r : AlertRow) : Bool :=
  match r.alert_type with
  | some ty => ty != "RETRACTION"
  | none => false

/-- The rows the inner `WHERE alert_type != 'RETRACTION'` keeps. -/
def nrRows (t : List AlertRow) : List AlertRow := t.filter isNonRetraction

/-- The distinct `superevent_id`s, as produced by `GROUP BY superevent_id`. -/
def eventSids (t : List AlertRow) : List String := (t.map (·.superevent_id)).dedup

/-- `a.alert_time = b.alert_time` under SQL three-valued logic: `NULL` never
equals anything. -/
def sqlTimeEq : Option ℤ → Option ℤ → Bool
  | some x, some y => x == y
  | _, _ => false

/-- The grouped sub-select `SELECT superevent_id, MAX(alert_time) ... GROUP BY
superevent_id` over the whole table. -/
def latestAll (t : List AlertRow) : List (String × Option ℤ) :=
  (eventSids t).map (fun s => (s, maxTime t s))

/-- The same grouped sub-select restricted to non-retraction rows. -/
def latestNR (t : List AlertRow) : List (String × Option ℤ) :=
  (eventSids (nrRows t)).map (fun s => (s, maxTime (nrRows t) s))

/-- `FROM alerts, (...) latest_alert WHERE alerts.superevent_id =
latest_alert.superevent_id AND alerts.alert_time = latest_alert.alert_time`:
the cross join filtered by the two equalities. -/
def joinLatest (t : List AlertRow) (lat : List (String × Option ℤ)) : List AlertRow :=
  t.flatMap (fun r => lat.filterMap (fun p =>
    if r.superevent_id == p.1 && sqlTimeEq r.alert_time p.2 then some r else none))

/-- The sub-select `a` (globally latest alert per superevent). -/
def aRows (t : List AlertRow) : List AlertRow := joinLatest t (latestAll t)

/-- The sub-select `b` (all rows at the latest non-retraction time per
superevent; note the outer `alerts` here is unfiltered). -/
def bRows (t : List AlertRow) : List AlertRow := joinLatest t (latestNR t)

/-- The `events` view (lines 163-212): cross join of `a` and `b` filtered by
`a.superevent_id = b.superevent_id`. -/
def eventsView (t : List AlertRow) : List EventRow :=
  (aRows t).flatMap (fun a => (bRows t).filterMap (fun b =>
    if a.superevent_id == b.superevent_id then some (mkEventRow a b) else none))

/-! ### The upsert (lines 220-231) -/

/-- The natural key `(superevent_id, alert_time, alert_type)` of the table's
unique index (line 154). -/
def sameKey (r1 r2 : AlertRow) : Bool :=
  r1.superevent_id == r2.superevent_id && r1.alert_time == r2.alert_time &&
    r1.alert_type == r2.alert_type

/-- Modelled from the spec: the write performed by
`insert_list_of_dictionaries_into_database_tables(..., replace=True)` (lines
220-231) — the library itself is an external dependency — is a
replace-on-conflict insert keyed on the unique index: any row with the same
natural key is dropped and the new row stored (§4.3: "replace-on-conflict
(matching the unique key)", last-write-wins by explicit replace). -/
def replaceInsert (t : List AlertRow) (r : AlertRow) : List AlertRow :=
  (t.filter (fun x => !sameKey x r)) ++ [r]

/-! ### The export fan-out (`export_alerts_table_to_csv`, lines 239-351) -/

/-- The three significance partitions of the export loop
(`for sig in ['all', False, True]`, line 281). -/
inductive SigPart where
  | all
  | low
  | high
deriving DecidableEq

/-- The filter added by `sigSql` (lines 283-291): nothing for `all`,
`significant = 1` for the high partition, `significant = 0` for the low one
(`NULL` satisfies neither). -/
def sigPred : SigPart → EventRow → Bool
  | .all, _ => true
  | .low, e => e.significant == some 0
  | .high, e => e.significant == some 1

/-- `superevent_id like "M%"` under the table's case-insensitive collation
(`utf8mb4_general_ci`). -/
def likePrefixCI (p s : String) : Bool := (upperStr p).data.isPrefixOf (upperStr s).data

/-- `ORDER BY alert_time DESC` comparison (MySQL sorts `NULL`s last in
descending order). -/
def timeDescGe (r1 r2 : AlertRow) : Bool :=
  match r1.alert_time, r2.alert_time with
  | some x, some y => y ≤ x
  | some _, none => true
  | none, some _ => false
  | none, none => true

def insertTimeDesc (r : AlertRow) : List AlertRow → List AlertRow
  | [] => [r]
  | x :: xs => if timeDescGe r x then r :: x :: xs else x :: insertTimeDesc r xs

/-- A stable sort realising `ORDER BY alert_time DESC`. -/
def orderByTimeDesc (l : List AlertRow) : List AlertRow := l.foldr insertTimeDesc []

/-- The rows of the events-view query of one export partition (lines
300-303): `select * from events where superevent_id like "{prefix}%"
{sigSql}`. -/
def partitionEventsRows (t : List AlertRow) (pfx : String) (sig : SigPart) : List EventRow :=
  (eventsView t).filter (fun e => likePrefixCI pfx e.superevent_id && sigPred sig e)

/-- The rows of the alerts-table query of one export partition (lines
325-328): `select * from alerts where superevent_id like "{prefix}%" order by
alert_time desc` — note the query is the same for every significance
partition: `sigSql` is not appended to it. -/
def partitionAlertsRows (t : List AlertRow) (pfx : String) (_sig : SigPart) : List AlertRow :=
  orderByTimeDesc (t.filter (fun r => likePrefixCI pfx r.superevent_id))

/-- An all-`NULL` row (used to build concrete table states). -/
def emptyRow : AlertRow :=
  { superevent_id := "", significant := none, alert_type := none, alert_time := none,
    alert_delta_sec := none, date_obs := none, mjd_obs := none, far_hz := none,
    far_years := none, distmean := none, diststd := none, class_bbh := none,
    class_bns := none, class_nsbh := none, class_terrestrial := none,
    prop_hasns := none, prop_hasremnant := none, prop_hasmassgap := none,
    area10 := none, area50 := none, area90 := none, creator := none,
    ra_centre := none, dec_centre := none, grp := none, logbci := none,
    logbsn := none, pipeline := none, search := none, map := none,
    dateAdded := none, dateLastModified := none }

/-! ### C5: idempotent upsert -/

theorem sameKey_refl (r : AlertRow) : sameKey r r = true := by
  simp [sameKey]

theorem sameKey_congr {r1 r2 : AlertRow} (h : sameKey r1 r2 = true) (x : AlertRow) :
    sameKey x r1 = sameKey x r2 := by
  simp only [sameKey, Bool.and_eq_true, beq_iff_eq] at h
  obtain ⟨⟨h1, h2⟩, h3⟩ := h
  simp [sameKey, h1, h2, h3]

/-- C5 (confirmed): ingesting the same alert twice — two records agreeing on
the natural key `(superevent_id, alert_time, alert_type)` — leaves the table
in the state one ingestion of the second record produces, and exactly one
stored row carries that key, with the second record's field values. -/
theorem c5_idempotent_upsert (t : List AlertRow) (r1 r2 : AlertRow) (h : sameKey r1 r2 = true) :
    replaceInsert (replaceInsert t r1) r2 = replaceInsert t r2 ∧
    (replaceInsert (replaceInsert t r1) r2).countP (fun x => sameKey x r2) = 1 := by
  have hkey : ∀ x, sameKey x r1 = sameKey x r2 := sameKey_congr h
  have heq : replaceInsert (replaceInsert t r1) r2 = replaceInsert t r2 := by
    simp only [replaceInsert, List.filter_append]
    have h1 : List.filter (fun x => !sameKey x r2) [r1] = [] := by
      simp [List.filter, h]
    rw [h1, List.append_nil, List.filter_filter]
    congr 1
    apply List.filter_congr
    intro x _
    rw [hkey x]
    cases sameKey x r2 <;> rfl
  refine ⟨heq, ?_⟩
  rw [heq]
  simp only [replaceInsert, List.countP_append]
  have h0 : (t.filter (fun x => !sameKey x r2)).countP (fun x => sameKey x r2) = 0 := by
    rw [List.countP_eq_zero]
    intro a ha
    have := List.of_mem_filter ha
    simp only [Bool.not_eq_true'] at this
    simp [this]
  rw [h0]
  simp [List.countP_cons, sameKey_refl]

theorem c5_witness :
    replaceInsert (replaceInsert [] emptyRow) emptyRow = replaceInsert [] emptyRow ∧
    (replaceInsert (replaceInsert [] emptyRow) emptyRow).countP (fun x => sameKey x emptyRow) = 1 :=
  c5_idempotent_upsert [] emptyRow emptyRow (sameKey_refl emptyRow)

/-! ### C7: `far` renaming and `far_years` -/

/-- C7 (confirmed): whenever the flat record has a `far` field whose value
coerces to a nonzero rational `q`, the cleaning step removes `far`, stores the
original value as `far_hz` and stores
`far_years = round(1 / (q * 60 * 60 * 24), 2)`; at `far = 1/864000`
(a ten-day mean recurrence) the stored `far_years` is exactly `10`. -/
theorem c7_far_years (d : FlatDict) (v : JVal) (q : ℚ)
    (hv : lookup d "far" = some v) (hq : pyFloat v = some q) (hq0 : q ≠ 0) :
    (∃ r, farClean d = some r ∧ lookup r "far" = none ∧ lookup r "far_hz" = some v ∧
      lookup r "far_years" = some (.num (round2 (1 / (q * (60 * 60 * 24)))))) ∧
    round2 (1 / ((1 / 864000 : ℚ) * (60 * 60 * 24))) = 10 := by
  constructor
  · refine ⟨setKey (setKey (removeKey d "far") "far_hz" v) "far_years"
      (.num (round2 (1 / (q * (60 * 60 * 24))))), ?_, ?_, ?_, ?_⟩
    · simp only [farClean, hv, hq]
      simp [hq0]
    · rw [lookup_setKey_ne _ _ (by decide), lookup_setKey_ne _ _ (by decide),
        lookup_removeKey_self]
    · rw [lookup_setKey_ne _ _ (by decide), lookup_setKey_self]
    · rw [lookup_setKey_self]
  · norm_num [round2]

theorem c7_witness :
    (∃ r, farClean [("far", JVal.num (1 / 864000))] = some r ∧
      lookup r "far" = none ∧ lookup r "far_hz" = some (JVal.num (1 / 864000)) ∧
      lookup r "far_years" = some (.num (round2 (1 / ((1 / 864000 : ℚ) * (60 * 60 * 24)))))) ∧
    round2 (1 / ((1 / 864000 : ℚ) * (60 * 60 * 24))) = 10 :=
  c7_far_years [("far", JVal.num (1 / 864000))] (JVal.num (1 / 864000)) (1 / 864000)
    rfl rfl (by norm_num)

/-! ### C8: `map` is the last `.fits` file -/

theorem lookup_mapStep (files : List String) (d : FlatDict) :
    lookup (mapStep files d) "map" =
      match (files.filter (fun f => extOf f == ".fits")).getLast? with
      | some f => some (.str f)
      | none => lookup d "map" := by
  induction files generalizing d with
  | nil => rfl
  | cons f fs ih =>
    simp only [mapStep, List.foldl_cons] at ih ⊢
    by_cases hf : extOf f = ".fits"
    · rw [if_pos hf, ih]
      cases hl : fs.filter (fun f => extOf f == ".fits") with
      | nil =>
        simp [List.filter_cons, hf, hl, lookup_setKey_self]
      | cons g gs =>
        obtain ⟨x, hx⟩ := Option.isSome_iff_exists.mp
          (List.getLast?_isSome.mpr (List.cons_ne_nil g gs))
        simp [List.filter_cons, hf, hl, hx]
    · rw [if_neg hf, ih]
      simp [List.filter_cons, hf]

/-- C8 (confirmed): when the record has no `map` field yet, after the file
scan `map` equals the path of the last file whose `os.path.splitext`
extension is exactly `.fits` (and is absent when none matches); the match is
case-sensitive (`.FITS` does not match) and the example list
`["a.fits", "b.json", "c.fits"]` stores `c.fits`. -/
theorem c8_map_last_fits (d : FlatDict) (files : List String) (hd : lookup d "map" = none) :
    lookup (mapStep files d) "map" =
      ((files.filter (fun f => extOf f == ".fits")).getLast?).map JVal.str ∧
    lookup (mapStep ["a.fits", "b.json", "c.fits"] []) "map" = some (.str "c.fits") ∧
    extOf "a.FITS" = ".FITS" ∧ lookup (mapStep ["a.FITS"] []) "map" = none := by
  refine ⟨?_, rfl, rfl, rfl⟩
  rw [lookup_mapStep]
  cases (files.filter (fun f => extOf f == ".fits")).getLast? <;> simp [hd]

theorem c8_witness :
    lookup (mapStep ["a.fits", "b.json", "c.fits"] []) "map" =
      (((["a.fits", "b.json", "c.fits"].filter (fun f => extOf f == ".fits")).getLast?).map JVal.str) :=
  (c8_map_last_fits [] ["a.fits", "b.json", "c.fits"] rfl).1

/-! ### C10: range of the stored `alert_delta_sec` -/

theorem isDigit_toNat {c : Char} (h : c.isDigit = true) : 48 ≤ c.toNat ∧ c.toNat ≤ 57 := by
  simp [Char.isDigit] at h
  exact h

theorem takeDigits_length_le (n : ℕ) (cs : List Char) : (takeDigits n cs).1.length ≤ n := by
  induction n generalizing cs with
  | zero => simp [takeDigits]
  | succ n ih =>
    cases cs with
    | nil => simp [takeDigits]
    | cons c rest =>
      by_cases h : c.isDigit <;> simp [takeDigits, h]
      exact ih rest

theorem takeDigits_digits (n : ℕ) (cs : List Char) :
    ∀ c ∈ (takeDigits n cs).1, c.isDigit = true := by
  induction n generalizing cs with
  | zero => simp [takeDigits]
  | succ n ih =>
    cases cs with
    | nil => simp [takeDigits]
    | cons c rest =>
      by_cases h : c.isDigit <;> simp [takeDigits, h]
      exact ih rest

theorem digitsToNat_lt_aux (ds : List Char) (hds : ∀ c ∈ ds, c.isDigit = true) :
    ∀ a : ℕ, ds.foldl (fun a c => a * 10 + digitVal c) a < (a + 1) * 10 ^ ds.length := by
  induction ds with
  | nil => intro a; simp
  | cons c rest ih =>
    intro a
    have hc : digitVal c ≤ 9 := by
      have := isDigit_toNat (hds c (by simp))
      simp only [digitVal]
      omega
    have hrest : ∀ c ∈ rest, c.isDigit = true := fun x hx => hds x (by simp [hx])
    calc (c :: rest).foldl (fun a c => a * 10 + digitVal c) a
        = rest.foldl (fun a c => a * 10 + digitVal c) (a * 10 + digitVal c) := by
          simp [List.foldl_cons]
      _ < (a * 10 + digitVal c + 1) * 10 ^ rest.length := ih hrest _
      _ ≤ ((a + 1) * 10) * 10 ^ rest.length := by
          have : a * 10 + digitVal c + 1 ≤ (a + 1) * 10 := by omega
          exact Nat.mul_le_mul_right _ this
      _ = (a + 1) * 10 ^ (c :: rest).length := by
          simp [List.length_cons, pow_succ]
          ring

theorem digitsToNat_lt (ds : List Char) (hds : ∀ c ∈ ds, c.isDigit = true) :
    digitsToNat ds < 10 ^ ds.length := by
  have := digitsToNat_lt_aux ds hds 0
  simpa [digitsToNat] using this

theorem pyStrptimeFZ_us_bounds {s : String} {t2s t2us : ℤ}
    (h : pyStrptimeFZ s = some (t2s, t2us)) : 0 ≤ t2us ∧ t2us < 1000000 := by
  cases hp : parseDateTimeCore s.data with
  | none => simp [pyStrptimeFZ, hp] at h
  | some pr =>
    obtain ⟨t, cs⟩ := pr
    simp only [pyStrptimeFZ, hp] at h
    cases he : expectChar '.' cs with
    | none => simp [he] at h
    | some cs1 =>
      simp only [he] at h
      by_cases hemp : (takeDigits 6 cs1).1.isEmpty
      · simp [hemp] at h
      · simp only [hemp, Bool.false_eq_true, if_false] at h
        cases hz : expectChar 'Z' (takeDigits 6 cs1).2 with
        | none => simp [hz] at h
        | some rest =>
          cases rest with
          | cons x xs => simp [hz] at h
          | nil =>
            simp only [hz, Option.some.injEq, Prod.mk.injEq] at h
            obtain ⟨_, hus⟩ := h
            subst hus
            have hlen := takeDigits_length_le 6 cs1
            have hval := digitsToNat_lt (takeDigits 6 cs1).1 (takeDigits_digits 6 cs1)
            constructor
            · positivity
            · have hb : digitsToNat (takeDigits 6 cs1).1 * 10 ^ (6 - (takeDigits 6 cs1).1.length)
                  < 1000000 := by
                calc digitsToNat (takeDigits 6 cs1).1 * 10 ^ (6 - (takeDigits 6 cs1).1.length)
                    < 10 ^ (takeDigits 6 cs1).1.length * 10 ^ (6 - (takeDigits 6 cs1).1.length) :=
                      (Nat.mul_lt_mul_right (Nat.pos_pow_of_pos _ (by norm_num))).mpr hval
                  _ = 10 ^ ((takeDigits 6 cs1).1.length + (6 - (takeDigits 6 cs1).1.length)) :=
                      (pow_add 10 _ _).symm
                  _ = 10 ^ 6 := by congr 1; omega
                  _ = 1000000 := by norm_num
              exact_mod_cast hb

/-- C10 (confirmed): `int(delta.seconds)` always lies in `[0, 86399]`; with
zero microseconds it is the signed seconds difference reduced modulo 86400
(so multi-day separations collapse), and when `time` is later than
`alert_time` by `g` seconds (`0 < g < 86400`) the stored value is the
complement `86400 - g`, not the true gap; the `%f` microsecond field the
flattener feeds it is always in `[0, 1000000)`. -/
theorem c10_delta_seconds_range :
    (∀ t1 t2s t2us : ℤ, 0 ≤ t2us → t2us < 1000000 →
      (0 ≤ deltaSeconds t1 t2s t2us ∧ deltaSeconds t1 t2s t2us ≤ 86399) ∧
      deltaSeconds t1 t2s 0 = (t1 - t2s) % 86400 ∧
      (∀ g : ℤ, 0 < g → g < 86400 → deltaSeconds t1 (t1 + g) 0 = 86400 - g)) ∧
    (∀ (s : String) (t2s t2us : ℤ), pyStrptimeFZ s = some (t2s, t2us) →
      0 ≤ t2us ∧ t2us < 1000000) := by
  constructor
  · intro t1 t2s t2us h0 h1
    refine ⟨⟨?_, ?_⟩, ?_, ?_⟩
    · simp only [deltaSeconds]; omega
    · simp only [deltaSeconds]; omega
    · simp only [deltaSeconds]; omega
    · intro g hg0 hg1
      simp only [deltaSeconds]; omega
  · intro s t2s t2us h
    exact pyStrptimeFZ_us_bounds h

theorem c10_witness :
    0 ≤ deltaSeconds 100 70 0 ∧ deltaSeconds 100 70 0 ≤ 86399 :=
  (c10_delta_seconds_range.1 100 70 0 le_rfl (by norm_num)).1

/-! ### C9: `EXTRA` without `central coordinate` aborts the ingestion -/

/-- C9 (confirmed): when the metadata has a non-empty `EXTRA` section that
lacks `central coordinate` (or whose `central coordinate` lacks
`equatorial`), the flattener raises an uncaught error and produces no
record. -/
theorem c9_extra_missing_coordinate (meta : List (String × JVal)) (files : List String)
    (e : List (String × JVal))
    (hx : lookup meta "EXTRA" = some (.dict e)) (hne : e ≠ [])
    (hcc : lookup e "central coordinate" = none ∨
      ∃ cc, lookup e "central coordinate" = some (.dict cc) ∧ lookup cc "equatorial" = none) :
    flatten meta files = none := by
  have hextra : ∀ d : FlatDict, extraStep meta d = none := by
    intro d
    have htr : truthy (.dict e) = true := by
      cases e with
      | nil => exact absurd rfl hne
      | cons p rest => simp [truthy]
    simp only [extraStep, hx, htr, if_true]
    rcases hcc with hc | ⟨cc, hc, heq⟩
    · simp only [hc]
    · simp only [hc, heq]
  unfold flatten
  cases ha : lookup meta "ALERT" with
  | none => rfl
  | some v =>
    cases v with
    | dict alert =>
      cases hev : eventStep alert (alertStep alert []) with
      | none => simp only [hev]
      | some d1 => simp only [hev, hextra d1]
    | str s => rfl
    | num q => rfl
    | bool b => rfl
    | null => rfl
    | list l => rfl

theorem c9_witness :
    flatten [("ALERT", JVal.dict []), ("EXTRA", JVal.dict [("x", JVal.num 1)])] [] = none :=
  c9_extra_missing_coordinate _ [] [("x", JVal.num 1)] rfl (by simp) (Or.inl rfl)

/-! ### C2: the HEADER allow-list is matched case-sensitively -/

theorem lookup_headerStep_untouched (hm : List (String × JVal)) (d : FlatDict) (κ : String)
    (h : ∀ p ∈ hm, (lowerStr p.1) ≠ κ) :
    lookup (headerStep hm d) κ = lookup d κ := by
  induction hm generalizing d with
  | nil => rfl
  | cons p rest ih =>
    simp only [headerStep, List.foldl_cons] at ih ⊢
    have hrest : ∀ q ∈ rest, (lowerStr q.1) ≠ κ := fun q hq => h q (by simp [hq])
    by_cases hg : (!isDict p.2 && allowList.contains p.1) = true
    · rw [if_pos hg, ih _ hrest, lookup_setKey_ne _ _ (h p (by simp))]
    · rw [if_neg hg]
      exact ih _ hrest

/-- C2 (corrected): a HEADER field `(k, v)` is copied (as key `k.lower()`)
iff its value is not a dict and its name is literally — case-sensitively —
one of `CREATOR, DATE-OBS, DISTMEAN, DISTSTD, LOGBCI, LOGBSN, MJD-OBS`;
otherwise the record keeps whatever was previously stored under `k.lower()`.
(The keys of a Python dict are distinct; the lower-cased-keys `Nodup`
hypothesis expresses that no two HEADER keys collide after lower-casing.) -/
theorem c2_header_allowlist_case_sensitive (d : FlatDict) (hm : List (String × JVal))
    (k : String) (v : JVal) (hmem : (k, v) ∈ hm)
    (hnd : (hm.map (fun p => (lowerStr p.1))).Nodup) :
    lookup (headerStep hm d) (lowerStr k) =
      if isDict v = false ∧ k ∈ allowList then some v else lookup d (lowerStr k) := by
  induction hm generalizing d with
  | nil => simp at hmem
  | cons p rest ih =>
    obtain ⟨k₀, v₀⟩ := p
    simp only [List.map_cons, List.nodup_cons] at hnd
    obtain ⟨hhead, htail⟩ := hnd
    simp only [headerStep, List.foldl_cons] at ih ⊢
    rcases List.mem_cons.mp hmem with hpk | hpk
    · injection hpk with hk hv
      subst hk; subst hv
      have hrest : ∀ q ∈ rest, (lowerStr q.1) ≠ (lowerStr k) := by
        intro q hq hqe
        exact hhead (by rw [← hqe]; exact List.mem_map_of_mem _ hq)
      by_cases hcase : isDict v = false ∧ k ∈ allowList
      · have hg : (!isDict v && allowList.contains k) = true := by
          simp [hcase.1, hcase.2]
        rw [if_pos hcase, if_pos hg]
        have huntouched :=
          lookup_headerStep_untouched rest (setKey d (lowerStr k) v) (lowerStr k) hrest
        simp only [headerStep] at huntouched
        rw [huntouched, lookup_setKey_self]
      · have hg : ¬((!isDict v && allowList.contains k) = true) := by
          rcases not_and_or.mp hcase with hc | hc
          · simp only [Bool.not_eq_false] at hc
            simp [hc]
          · simp [hc]
        rw [if_neg hcase, if_neg hg]
        have huntouched := lookup_headerStep_untouched rest d (lowerStr k) hrest
        simp only [headerStep] at huntouched
        exact huntouched
    · have hk0 : (lowerStr k₀) ≠ (lowerStr k) := by
        intro hqe
        exact hhead (by rw [hqe]; exact List.mem_map_of_mem _ hpk)
      by_cases hg : (!isDict v₀ && allowList.contains k₀) = true
      · rw [if_pos hg, ih _ hpk htail]
        by_cases hcase : isDict v = false ∧ k ∈ allowList
        · rw [if_pos hcase, if_pos hcase]
        · rw [if_neg hcase, if_neg hcase, lookup_setKey_ne _ _ hk0]
      · rw [if_neg hg]
        exact ih _ hpk htail

/-- C2 counterexample: a HEADER key `creator` — which matches the allow-list
case-insensitively and has a scalar value — is NOT copied (the flat record
stays empty), while an allow-listed key with a list (non-scalar) value IS
copied.  Both contradict the claim's "scalar and name matches
case-insensitively". -/
theorem c2_counterexample :
    upperStr "creator" ∈ allowList ∧
    flatten [("ALERT", JVal.dict []), ("HEADER", JVal.dict [("creator", JVal.str "me")])] []
      = some [] ∧
    flatten [("ALERT", JVal.dict []),
        ("HEADER", JVal.dict [("DISTMEAN", JVal.list [JVal.num 1])])] []
      = some [("distmean", JVal.list [JVal.num 1])] ∧
    isList (JVal.list [JVal.num 1]) = true := by
  refine ⟨by decide, rfl, rfl, rfl⟩

theorem c2_witness :
    lookup (headerStep [("CREATOR", JVal.str "x")] []) (lowerStr "CREATOR") =
      if isDict (JVal.str "x") = false ∧ "CREATOR" ∈ allowList then some (JVal.str "x")
      else lookup [] (lowerStr "CREATOR") :=
  c2_header_allowlist_case_sensitive [] [("CREATOR", JVal.str "x")] "CREATOR" (JVal.str "x")
    (by simp) (by simp)

/-! ### C3: `alert_delta_sec` is not the absolute difference -/

/-- C3 (corrected): with `time_created` and `time` both present as strings,
when both timestamps parse the stored `alert_delta_sec` is
`deltaSeconds` — the `timedelta` seconds component, i.e. the *signed*
difference reduced modulo one day — not the absolute difference; on any
parse failure the field is left unset; `time` is removed and `alert_time`
holds the renamed `time_created` in every case. -/
theorem c3_delta_is_mod_not_abs (d : FlatDict) (s1 s2 : String)
    (h1 : lookup d "time_created" = some (.str s1))
    (h2 : lookup d "time" = some (.str s2)) :
    (∀ t1 t2s t2us : ℤ, pyStrptimeZ s1 = some t1 → pyStrptimeFZ s2 = some (t2s, t2us) →
      lookup (timeClean d) "alert_delta_sec" = some (.num ((deltaSeconds t1 t2s t2us : ℤ) : ℚ))) ∧
    ((pyStrptimeZ s1 = none ∨ pyStrptimeFZ s2 = none) → lookup d "alert_delta_sec" = none →
      lookup (timeClean d) "alert_delta_sec" = none) ∧
    lookup (timeClean d) "time" = none ∧
    lookup (timeClean d) "alert_time" = some (.str s1) := by
  have hd1 : lookup (setKey (removeKey d "time_created") "alert_time" (JVal.str s1)) "time"
      = some (.str s2) := by
    rw [lookup_setKey_ne _ _ (by decide), lookup_removeKey_ne _ (by decide), h2]
  have hda : lookup (setKey (removeKey d "time_created") "alert_time" (JVal.str s1))
      "alert_delta_sec" = lookup d "alert_delta_sec" := by
    rw [lookup_setKey_ne _ _ (by decide), lookup_removeKey_ne _ (by decide)]
  refine ⟨?_, ?_, ?_, ?_⟩
  · intro t1 t2s t2us hp1 hp2
    simp only [timeClean, h1, hd1, pyParseAlertTime, pyParseEventTime, hp1, hp2]
    rw [lookup_removeKey_ne _ (by decide), lookup_setKey_self]
  · intro hfail hnone
    simp only [timeClean, h1, hd1, pyParseAlertTime, pyParseEventTime]
    cases hp1 : pyStrptimeZ s1 with
    | none =>
      cases hp2 : pyStrptimeFZ s2 <;>
        · simp only
          rw [lookup_removeKey_ne _ (by decide), hda, hnone]
    | some t1 =>
      cases hp2 : pyStrptimeFZ s2 with
      | none =>
        simp only
        rw [lookup_removeKey_ne _ (by decide), hda, hnone]
      | some t2 =>
        rcases hfail with hf | hf
        · rw [hp1] at hf; exact absurd hf (by simp)
        · rw [hp2] at hf; exact absurd hf (by simp)
  · simp only [timeClean, h1, hd1]
    cases pyParseAlertTime (JVal.str s1) <;> cases pyParseEventTime (JVal.str s2) <;>
      · simp only
        rw [lookup_removeKey_self]
  · have hat : lookup (setKey (removeKey d "time_created") "alert_time" (JVal.str s1))
        "alert_time" = some (.str s1) := lookup_setKey_self _ _ _
    simp only [timeClean, h1, hd1]
    cases pyParseAlertTime (JVal.str s1) <;> cases pyParseEventTime (JVal.str s2) <;>
      · simp only
        rw [lookup_removeKey_ne _ (by decide)]
        first
        | exact hat
        | rw [lookup_setKey_ne _ _ (by decide)]; exact hat

/-- C3 counterexample: `alert_time = 2023-05-11T09:59:30Z` (earlier) and
`time = 2023-05-11T10:00:00.000000Z` (later by 30 s) store
`alert_delta_sec = 86370`, not the absolute difference 30. -/
theorem c3_counterexample :
    lookup (timeClean [("time_created", JVal.str "2023-05-11T09:59:30Z"),
        ("time", JVal.str "2023-05-11T10:00:00.000000Z")]) "alert_delta_sec"
      = some (.num 86370) ∧ (86370 : ℚ) ≠ 30 := by
  exact ⟨rfl, by norm_num⟩

theorem c3_witness :
    lookup (timeClean [("time_created", JVal.str "2023-05-11T10:00:00Z"),
        ("time", JVal.str "2023-05-11T09:59:30.000000Z")]) "time" = none ∧
    lookup (timeClean [("time_created", JVal.str "2023-05-11T10:00:00Z"),
        ("time", JVal.str "2023-05-11T09:59:30.000000Z")]) "alert_time"
      = some (.str "2023-05-11T10:00:00Z") :=
  (c3_delta_is_mod_not_abs
    [("time_created", JVal.str "2023-05-11T10:00:00Z"),
     ("time", JVal.str "2023-05-11T09:59:30.000000Z")]
    "2023-05-11T10:00:00Z" "2023-05-11T09:59:30.000000Z" rfl rfl).2.2

/-! ### C6: no value of the flat record is a dict (but lists do get through) -/

/-- No value stored in the dict is itself a dict. -/
def noDictVals (d : FlatDict) : Prop := ∀ p ∈ d, isDict p.2 = false

theorem noDictVals_nil : noDictVals [] := by
  intro p hp
  simp at hp

theorem noDictVals_setKey {d : FlatDict} {k : String} {v : JVal}
    (hd : noDictVals d) (hv : isDict v = false) : noDictVals (setKey d k v) := by
  intro p hp
  rcases mem_setKey hp with h | h
  · exact hd p h
  · rw [h]; exact hv

theorem noDictVals_removeKey {d : FlatDict} {k : String}
    (hd : noDictVals d) : noDictVals (removeKey d k) :=
  fun p hp => hd p (mem_removeKey hp)

theorem noDictVals_foldl {α : Type} (l : List α) (d : FlatDict)
    (step : FlatDict → α → FlatDict)
    (hstep : ∀ acc p, noDictVals acc → noDictVals (step acc p)) (hd : noDictVals d) :
    noDictVals (l.foldl step d) := by
  induction l generalizing d with
  | nil => exact hd
  | cons p rest ih => exact ih _ (hstep d p hd)

theorem noDictVals_alertStep (alert : List (String × JVal)) {d : FlatDict}
    (hd : noDictVals d) : noDictVals (alertStep alert d) := by
  refine noDictVals_foldl _ _ _ (fun acc p hacc => ?_) hd
  by_cases h : isDict p.2 = true
  · simp only [h, if_true]; exact hacc
  · rw [Bool.not_eq_true] at h
    simp only [h, Bool.false_eq_true, if_false]
    exact noDictVals_setKey hacc h

theorem noDictVals_classStep {ev : List (String × JVal)} {d d' : FlatDict}
    (h : classStep ev d = some d') (hd : noDictVals d) : noDictVals d' := by
  unfold classStep at h
  cases hc : lookup ev "classification" with
  | none => simp only [hc] at h; injection h with h; rw [← h]; exact hd
  | some c =>
    simp only [hc] at h
    by_cases htr : truthy c = true
    · rw [if_pos htr] at h
      cases c with
      | str s => simp at h
      | num q => simp at h
      | bool b => simp at h
      | null => simp at h
      | list l => simp at h
      | dict cm =>
        simp only [] at h
        injection h with h
        rw [← h]
        refine noDictVals_foldl _ _ _ (fun acc p hacc => ?_) hd
        by_cases hpd : isDict p.2 = true
        · simp only [hpd, if_true]; exact hacc
        · rw [Bool.not_eq_true] at hpd
          simp only [hpd, Bool.false_eq_true, if_false]
          exact noDictVals_setKey hacc hpd
    · rw [if_neg htr] at h
      injection h with h; rw [← h]; exact hd

theorem noDictVals_propStep {ev : List (String × JVal)} {d d' : FlatDict}
    (h : propStep ev d = some d') (hd : noDictVals d) : noDictVals d' := by
  unfold propStep at h
  cases hc : lookup ev "properties" with
  | none => simp only [hc] at h; injection h with h; rw [← h]; exact hd
  | some c =>
    simp only [hc] at h
    by_cases htr : truthy c = true
    · rw [if_pos htr] at h
      cases c with
      | str s => simp at h
      | num q => simp at h
      | bool b => simp at h
      | null => simp at h
      | list l => simp at h
      | dict pm =>
        simp only [] at h
        injection h with h
        rw [← h]
        refine noDictVals_foldl _ _ _ (fun acc p hacc => ?_) hd
        by_cases hpd : isDict p.2 = true
        · simp only [hpd, if_true]; exact hacc
        · rw [Bool.not_eq_true] at hpd
          simp only [hpd, Bool.false_eq_true, if_false]
          exact noDictVals_setKey hacc hpd
    · rw [if_neg htr] at h
      injection h with h; rw [← h]; exact hd

theorem noDictVals_eventStep {alert : List (String × JVal)} {d d' : FlatDict}
    (h : eventStep alert d = some d') (hd : noDictVals d) : noDictVals d' := by
  unfold eventStep at h
  cases hc : lookup alert "event" with
  | none => simp only [hc] at h; injection h with h; rw [← h]; exact hd
  | some ev =>
    simp only [hc] at h
    by_cases htr : truthy ev = true
    · rw [if_pos htr] at h
      cases ev with
      | str s => simp at h
      | num q => simp at h
      | bool b => simp at h
      | null => simp at h
      | list l => simp at h
      | dict e =>
        simp only [] at h
        have hd1 : noDictVals (e.foldl (fun acc p =>
            if isDict p.2 || isList p.2 then acc else setKey acc (lowerStr p.1) p.2) d) := by
          refine noDictVals_foldl _ _ _ (fun acc p hacc => ?_) hd
          by_cases hpd : (isDict p.2 || isList p.2) = true
          · simp only [hpd, if_true]; exact hacc
          · simp only [hpd, Bool.false_eq_true, if_false]
            simp only [Bool.or_eq_true, not_or, Bool.not_eq_true] at hpd
            exact noDictVals_setKey hacc hpd.1
        cases hcs : classStep e (e.foldl (fun acc p =>
            if isDict p.2 || isList p.2 then acc else setKey acc (lowerStr p.1) p.2) d) with
        | none => simp only [hcs] at h; exact absurd h (by simp)
        | some d2 =>
          simp only [hcs] at h
          exact noDictVals_propStep h (noDictVals_classStep hcs hd1)
    · rw [if_neg htr] at h
      injection h with h; rw [← h]; exact hd

theorem noDictVals_extraStep {meta : List (String × JVal)} {d d' : FlatDict}
    (h : extraStep meta d = some d') (hd : noDictVals d) : noDictVals d' := by
  unfold extraStep at h
  cases hx : lookup meta "EXTRA" with
  | none => simp only [hx] at h; injection h with h; rw [← h]; exact hd
  | some ex =>
    simp only [hx] at h
    by_cases htr : truthy ex = true
    · rw [if_pos htr] at h
      cases ex with
      | str s => simp at h
      | num q => simp at h
      | bool b => simp at h
      | null => simp at h
      | list l => simp at h
      | dict e =>
        have hd1 : noDictVals (e.foldl (fun acc p =>
            if isDict p.2 then acc else setKey acc (lowerStr p.1) p.2) d) := by
          refine noDictVals_foldl _ _ _ (fun acc p hacc => ?_) hd
          by_cases hpd : isDict p.2 = true
          · simp only [hpd, if_true]; exact hacc
          · rw [Bool.not_eq_true] at hpd
            simp only [hpd, Bool.false_eq_true, if_false]
            exact noDictVals_setKey hacc hpd
        simp only [] at h
        cases hcc : lookup e "central coordinate" with
        | none => simp only [hcc] at h; exact absurd h (by simp)
        | some cv =>
          simp only [hcc] at h
          cases cv with
          | str s => simp at h
          | num q => simp at h
          | bool b => simp at h
          | null => simp at h
          | list l => simp at h
          | dict cc =>
            simp only [] at h
            cases heq : lookup cc "equatorial" with
            | none => simp only [heq] at h; exact absurd h (by simp)
            | some ev =>
              simp only [heq] at h
              cases ev with
              | num q => simp at h
              | bool b => simp at h
              | null => simp at h
              | list l => simp at h
              | dict dd => simp at h
              | str s =>
                simp only [] at h
                cases hts : pySplitWs s with
                | nil => simp only [hts] at h; exact absurd h (by simp)
                | cons t0 ts =>
                  cases ts with
                  | nil => simp only [hts] at h; exact absurd h (by simp)
                  | cons t1 ts' =>
                    simp only [hts] at h
                    injection h with h
                    rw [← h]
                    exact noDictVals_setKey (noDictVals_setKey hd1 rfl) rfl
    · rw [if_neg htr] at h
      injection h with h; rw [← h]; exact hd

theorem noDictVals_headerStep (hm : List (String × JVal)) {d : FlatDict}
    (hd : noDictVals d) : noDictVals (headerStep hm d) := by
  refine noDictVals_foldl _ _ _ (fun acc p hacc => ?_) hd
  by_cases hg : (!isDict p.2 && allowList.contains p.1) = true
  · rw [if_pos hg]
    simp only [Bool.and_eq_true, Bool.not_eq_true'] at hg
    exact noDictVals_setKey hacc hg.1
  · rw [if_neg hg]
    exact hacc

theorem noDictVals_headerGate {meta : List (String × JVal)} {d d' : FlatDict}
    (h : headerGate meta d = some d') (hd : noDictVals d) : noDictVals d' := by
  unfold headerGate at h
  cases hx : lookup meta "HEADER" with
  | none => simp only [hx] at h; injection h with h; rw [← h]; exact hd
  | some hv =>
    simp only [hx] at h
    by_cases htr : truthy hv = true
    · rw [if_pos htr] at h
      cases hv with
      | str s => simp at h
      | num q => simp at h
      | bool b => simp at h
      | null => simp at h
      | list l => simp at h
      | dict hm =>
        simp only [] at h
        injection h with h
        rw [← h]
        exact noDictVals_headerStep hm hd
    · rw [if_neg htr] at h
      injection h with h; rw [← h]; exact hd

theorem noDictVals_farClean {d d' : FlatDict}
    (h : farClean d = some d') (hd : noDictVals d) : noDictVals d' := by
  unfold farClean at h
  cases hv : lookup d "far" with
  | none => simp only [hv] at h; injection h with h; rw [← h]; exact hd
  | some v =>
    simp only [hv] at h
    have hvd : isDict v = false := hd _ (lookup_mem hv)
    cases hq : pyFloat v with
    | none => simp only [hq] at h; exact absurd h (by simp)
    | some q =>
      simp only [hq] at h
      by_cases hq0 : q = 0
      · rw [if_pos hq0] at h; exact absurd h (by simp)
      · rw [if_neg hq0] at h
        injection h with h
        rw [← h]
        exact noDictVals_setKey (noDictVals_setKey (noDictVals_removeKey hd) hvd) rfl

theorem noDictVals_timeClean {d : FlatDict} (hd : noDictVals d) :
    noDictVals (timeClean d) := by
  unfold timeClean
  cases hv : lookup d "time_created" with
  | none => exact hd
  | some v =>
    simp only []
    have hvd : isDict v = false := hd _ (lookup_mem hv)
    have hd1 : noDictVals (setKey (removeKey d "time_created") "alert_time" v) :=
      noDictVals_setKey (noDictVals_removeKey hd) hvd
    cases hw : lookup (setKey (removeKey d "time_created") "alert_time" v) "time" with
    | none => exact hd1
    | some w =>
      simp only []
      cases pyParseAlertTime v with
      | none => exact noDictVals_removeKey hd1
      | some t1 =>
        cases pyParseEventTime w with
        | none => exact noDictVals_removeKey hd1
        | some t2 =>
          exact noDictVals_removeKey (noDictVals_setKey hd1 (rfl : isDict (JVal.num _) = false))

theorem noDictVals_sigClean {d : FlatDict} (hd : noDictVals d) :
    noDictVals (sigClean d) := by
  unfold sigClean
  cases lookup d "significant" with
  | none => exact hd
  | some v => exact noDictVals_setKey hd rfl

theorem noDictVals_mapStep (files : List String) {d : FlatDict} (hd : noDictVals d) :
    noDictVals (mapStep files d) := by
  unfold mapStep
  refine noDictVals_foldl _ _ _ (fun acc f hacc => ?_) hd
  by_cases hf : extOf f = ".fits"
  · rw [if_pos hf]; exact noDictVals_setKey hacc rfl
  · rw [if_neg hf]; exact hacc

/-- C6 (corrected): every value of a successfully produced flat record is a
non-dict — nested dicts never survive flattening — but (contrary to the
claim) list values are not excluded in general; see the counterexample. -/
theorem c6_no_dict_values (meta : List (String × JVal)) (files : List String) (r : FlatDict)
    (h : flatten meta files = some r) : ∀ p ∈ r, isDict p.2 = false := by
  unfold flatten at h
  cases ha : lookup meta "ALERT" with
  | none => simp only [ha] at h; exact absurd h (by simp)
  | some v =>
    simp only [ha] at h
    cases v with
    | str s => simp at h
    | num q => simp at h
    | bool b => simp at h
    | null => simp at h
    | list l => simp at h
    | dict alert =>
      simp only [] at h
      cases hev : eventStep alert (alertStep alert []) with
      | none => simp only [hev] at h; exact absurd h (by simp)
      | some d1 =>
        simp only [hev] at h
        cases hex : extraStep meta d1 with
        | none => simp only [hex] at h; exact absurd h (by simp)
        | some d2 =>
          simp only [hex] at h
          cases hhg : headerGate meta d2 with
          | none => simp only [hhg] at h; exact absurd h (by simp)
          | some d3 =>
            simp only [hhg] at h
            cases hfc : farClean d3 with
            | none => simp only [hfc] at h; exact absurd h (by simp)
            | some d4 =>
              simp only [hfc] at h
              injection h with h
              rw [← h]
              exact noDictVals_mapStep files (noDictVals_sigClean (noDictVals_timeClean
                (noDictVals_farClean hfc (noDictVals_headerGate hhg (noDictVals_extraStep hex
                  (noDictVals_eventStep hev (noDictVals_alertStep alert noDictVals_nil)))))))

/-- C6 counterexample: a list-valued `ALERT` field passes the `not
isinstance(v, dict)` guard, so the flat record contains a list value — the
claim's "no lists" guarantee fails. -/
theorem c6_counterexample :
    flatten [("ALERT", JVal.dict [("urls", JVal.list [JVal.str "u"])])] []
      = some [("urls", JVal.list [JVal.str "u"])] ∧
    isList (JVal.list [JVal.str "u"]) = true :=
  ⟨rfl, rfl⟩

theorem c6_witness :
    isDict (JVal.list [JVal.str "u"]) = false :=
  c6_no_dict_values [("ALERT", JVal.dict [("urls", JVal.list [JVal.str "u"])])] []
    [("urls", JVal.list [JVal.str "u"])] rfl ("urls", JVal.list [JVal.str "u"]) (by simp)

/-! ### C1: only the events query carries the significance filter -/

theorem mem_insertTimeDesc {a r : AlertRow} {l : List AlertRow} :
    a ∈ insertTimeDesc r l ↔ a = r ∨ a ∈ l := by
  induction l with
  | nil => simp [insertTimeDesc]
  | cons x xs ih =>
    by_cases h : timeDescGe r x = true
    · simp [insertTimeDesc, h]
    · simp [insertTimeDesc, h, ih]
      tauto

theorem mem_orderByTimeDesc {a : AlertRow} {l : List AlertRow} :
    a ∈ orderByTimeDesc l ↔ a ∈ l := by
  induction l with
  | nil => simp [orderByTimeDesc]
  | cons x xs ih =>
    simp only [orderByTimeDesc, List.foldr_cons] at ih ⊢
    rw [mem_insertTimeDesc, ih]
    simp

/-- A sample low-significance mock-event row. -/
def mRow : AlertRow :=
  { emptyRow with
      superevent_id := "M1"
      significant := some 0
      alert_type := some "INITIAL"
      alert_time := some 1 }

/-- C1 (corrected): in the export fan-out only the events-view query is
filtered by the partition's significance (`sigSql`); the alerts-table query
is filtered by the `superevent_id` prefix alone, so `alerts.csv` of a
significance partition contains every prefix-matching row regardless of its
`significant` value. -/
theorem c1_export_significance_filters (t : List AlertRow) (pfx : String) (sig : SigPart) :
    (∀ e ∈ partitionEventsRows t pfx sig,
      (sig = .high → e.significant = some 1) ∧ (sig = .low → e.significant = some 0)) ∧
    (∀ r : AlertRow, r ∈ partitionAlertsRows t pfx sig ↔
      r ∈ t ∧ likePrefixCI pfx r.superevent_id = true) := by
  constructor
  · intro e he
    have hf := List.of_mem_filter he
    rw [Bool.and_eq_true] at hf
    constructor
    · rintro rfl
      have := hf.2
      simpa [sigPred] using this
    · rintro rfl
      have := hf.2
      simpa [sigPred] using this
  · intro r
    unfold partitionAlertsRows
    rw [mem_orderByTimeDesc, List.mem_filter]

/-- C1 counterexample: a `significant = 0` row is selected by the
high-significance partition's alerts query (the code's query line 327 has no
`significant = 1` condition), so `alerts.csv` of `_high_significance` can
contain low-significance rows. -/
theorem c1_counterexample :
    mRow ∈ partitionAlertsRows [mRow] "M" .high ∧ mRow.significant ≠ some 1 := by
  constructor
  · decide
  · decide

theorem c1_witness :
    mRow ∈ partitionAlertsRows [mRow] "M" SigPart.low :=
  ((c1_export_significance_filters [mRow] "M" SigPart.low).2 mRow).mpr
    ⟨List.mem_singleton.mpr rfl, by decide⟩

/-! ### C4: shape of the `events` view -/

theorem maxOf_eq_none {l : List ℤ} (h : maxOf l = none) : l = [] := by
  cases l with
  | nil => rfl
  | cons x xs =>
    unfold maxOf at h
    cases hm : maxOf xs <;> rw [hm] at h <;> simp at h

theorem maxOf_mem {l : List ℤ} {m : ℤ} (h : maxOf l = some m) : m ∈ l := by
  induction l generalizing m with
  | nil => simp [maxOf] at h
  | cons x xs ih =>
    unfold maxOf at h
    cases hm : maxOf xs with
    | none =>
      rw [hm] at h
      injection h with h
      rw [← h]
      exact List.mem_cons_self x xs
    | some m' =>
      rw [hm] at h
      injection h with h
      rcases max_choice x m' with hc | hc <;> rw [hc] at h
      · rw [← h]
        exact List.mem_cons_self x xs
      · subst h
        exact List.mem_cons_of_mem x (ih hm)

theorem le_maxOf {l : List ℤ} {m x : ℤ} (h : maxOf l = some m) (hx : x ∈ l) : x ≤ m := by
  induction l generalizing m with
  | nil => simp at hx
  | cons y ys ih =>
    unfold maxOf at h
    cases hm : maxOf ys with
    | none =>
      rw [hm] at h
      injection h with h
      have hys := maxOf_eq_none hm
      subst hys
      simp at hx
      subst hx
      subst h
      exact le_rfl
    | some m' =>
      rw [hm] at h
      injection h with h
      rcases List.mem_cons.mp hx with hy | hy
      · subst hy; rw [← h]; exact le_max_left _ _
      · calc x ≤ m' := ih hm hy
          _ ≤ m := h ▸ le_max_right _ _

theorem maxOf_isSome {l : List ℤ} (h : l ≠ []) : ∃ m, maxOf l = some m := by
  cases l with
  | nil => exact absurd rfl h
  | cons x xs =>
    unfold maxOf
    cases maxOf xs <;> simp

theorem mem_sidTimes {t : List AlertRow} {s : String} {x : ℤ} :
    x ∈ sidTimes t s ↔ ∃ r ∈ t, r.superevent_id = s ∧ r.alert_time = some x := by
  unfold sidTimes
  rw [List.mem_filterMap]
  constructor
  · rintro ⟨r, hr, hx⟩
    by_cases hs : r.superevent_id = s
    · rw [if_pos hs] at hx
      exact ⟨r, hr, hs, hx⟩
    · rw [if_neg hs] at hx
      exact absurd hx (by simp)
  · rintro ⟨r, hr, hs, hx⟩
    exact ⟨r, hr, by rw [if_pos hs, hx]⟩

theorem mem_eventSids {t : List AlertRow} {s : String} :
    s ∈ eventSids t ↔ ∃ r ∈ t, r.superevent_id = s := by
  unfold eventSids
  rw [List.mem_dedup, List.mem_map]

theorem countP_le_one_of_unique {α : Type} {l : List α} {p : α → Bool} {x : α}
    (hnd : l.Nodup) (hu : ∀ a ∈ l, p a = true → a = x) : l.countP p ≤ 1 := by
  induction l with
  | nil => simp
  | cons a rest ih =>
    rw [List.nodup_cons] at hnd
    rw [List.countP_cons]
    by_cases ha : p a = true
    · have hax : a = x := hu a (by simp) ha
      have hrest : rest.countP p = 0 := by
        rw [List.countP_eq_zero]
        intro b hb hpb
        have hbx : b = x := hu b (by simp [hb]) hpb
        exact hnd.1 (by rw [hax, ← hbx]; exact hb)
      simp [ha, hrest]
    · rw [Bool.not_eq_true] at ha
      simp only [ha, Bool.false_eq_true, if_false, Nat.add_zero]
      exact Nat.le_trans (ih hnd.2 (fun b hb hpb => hu b (by simp [hb]) hpb)) le_rfl

theorem mem_joinLatest {t : List AlertRow} {ss : List String} {f : String → Option ℤ}
    {r' : AlertRow} :
    r' ∈ joinLatest t (ss.map fun x => (x, f x)) ↔
      r' ∈ t ∧ r'.superevent_id ∈ ss ∧ sqlTimeEq r'.alert_time (f r'.superevent_id) = true := by
  unfold joinLatest
  rw [List.mem_flatMap]
  constructor
  · rintro ⟨r, hr, hmem⟩
    rw [List.mem_filterMap] at hmem
    obtain ⟨p, hp, hcond⟩ := hmem
    by_cases hc : (r.superevent_id == p.1 && sqlTimeEq r.alert_time p.2) = true
    · rw [if_pos hc] at hcond
      injection hcond with hcond
      subst hcond
      obtain ⟨p0, hp0, hpe⟩ := List.mem_map.mp hp
      subst hpe
      rw [Bool.and_eq_true, beq_iff_eq] at hc
      refine ⟨hr, ?_, ?_⟩
      · rw [hc.1]; exact hp0
      · rw [hc.1]; exact hc.2
    · rw [if_neg hc] at hcond
      exact absurd hcond (by simp)
  · rintro ⟨hr, hss, htime⟩
    refine ⟨r', hr, ?_⟩
    rw [List.mem_filterMap]
    refine ⟨(r'.superevent_id, f r'.superevent_id), List.mem_map_of_mem _ hss, ?_⟩
    rw [if_pos (by rw [Bool.and_eq_true, beq_iff_eq]; exact ⟨rfl, htime⟩)]

theorem countP_inner_join {ss : List String} {f : String → Option ℤ} (hnd : ss.Nodup)
    (r : AlertRow) (s : String) :
    (((ss.map fun x => (x, f x)).filterMap (fun p =>
        if r.superevent_id == p.1 && sqlTimeEq r.alert_time p.2 then some r else none)).countP
      (fun y => y.superevent_id == s))
    = if r.superevent_id = s ∧ r.superevent_id ∈ ss ∧
        sqlTimeEq r.alert_time (f r.superevent_id) = true then 1 else 0 := by
  induction ss with
  | nil => simp
  | cons x xs ih =>
    rw [List.nodup_cons] at hnd
    simp only [List.map_cons, List.filterMap_cons]
    by_cases hx : r.superevent_id = x
    · subst hx
      have htail : ((xs.map fun x => (x, f x)).filterMap (fun p =>
          if r.superevent_id == p.1 && sqlTimeEq r.alert_time p.2 then some r else none)) = [] := by
        rw [List.filterMap_eq_nil_iff]
        intro p hp
        obtain ⟨x0, hx0, hpe⟩ := List.mem_map.mp hp
        subst hpe
        have hne : (r.superevent_id == x0) = false := by
          rw [beq_eq_false_iff_ne]
          intro he
          exact hnd.1 (he ▸ hx0)
        simp [hne]
      by_cases ht : sqlTimeEq r.alert_time (f r.superevent_id) = true
      · have hcond : (r.superevent_id == r.superevent_id &&
            sqlTimeEq r.alert_time (f r.superevent_id)) = true := by simp [ht]
        rw [if_pos hcond]
        simp only [htail, List.countP_cons, List.countP_nil]
        by_cases hrs : r.superevent_id = s
        · rw [hrs] at ht
          simp [hrs, ht]
        · have hbeq : (r.superevent_id == s) = false := by
            rw [beq_eq_false_iff_ne]; exact hrs
          simp [hbeq, hrs]
      · have hcond : ¬((r.superevent_id == r.superevent_id &&
            sqlTimeEq r.alert_time (f r.superevent_id)) = true) := by
          rw [Bool.not_eq_true] at ht
          simp [ht]
        rw [if_neg hcond]
        simp only [htail, List.countP_nil]
        rw [if_neg (by rintro ⟨h1, h2, h3⟩; exact hcond (by simp [h3]))]
    · have hcond : ¬((r.superevent_id == x && sqlTimeEq r.alert_time (f x)) = true) := by
        have hne : (r.superevent_id == x) = false := by
          rw [beq_eq_false_iff_ne]; exact hx
        simp [hne]
      rw [if_neg hcond]
      rw [ih hnd.2]
      have hiff : (r.superevent_id = s ∧ r.superevent_id ∈ x :: xs ∧
          sqlTimeEq r.alert_time (f r.superevent_id) = true) ↔
          (r.superevent_id = s ∧ r.superevent_id ∈ xs ∧
          sqlTimeEq r.alert_time (f r.superevent_id) = true) := by
        simp only [List.mem_cons]
        tauto
      rw [if_congr hiff rfl rfl]

theorem countP_joinLatest {ss : List String} {f : String → Option ℤ} (hnd : ss.Nodup)
    (t : List AlertRow) (s : String) :
    (joinLatest t (ss.map fun x => (x, f x))).countP (fun r => r.superevent_id == s)
    = if s ∈ ss then
        t.countP (fun r => r.superevent_id == s && sqlTimeEq r.alert_time (f s)) else 0 := by
  induction t with
  | nil => simp [joinLatest]
  | cons r rest ih =>
    unfold joinLatest at ih ⊢
    simp only [List.flatMap_cons, List.countP_append]
    rw [countP_inner_join hnd r s, ih, List.countP_cons]
    by_cases hs : s ∈ ss
    · rw [if_pos hs, if_pos hs]
      by_cases hr : r.superevent_id = s
      · have hbeq : (r.superevent_id == s) = true := by simp [hr]
        by_cases htq : sqlTimeEq r.alert_time (f s) = true
        · simp [hr, hs, htq, hbeq]
          omega
        · rw [Bool.not_eq_true] at htq
          have : (r.superevent_id = s ∧ r.superevent_id ∈ ss ∧
              sqlTimeEq r.alert_time (f r.superevent_id) = true) ↔ False := by
            simp [hr, hs, htq]
          rw [if_neg (by simp [this])]
          simp [hbeq, htq]
      · have hbeq : (r.superevent_id == s) = false := by rw [beq_eq_false_iff_ne]; exact hr
        rw [if_neg (by simp [hr])]
        simp [hbeq]
    · rw [if_neg hs, if_neg hs]
      have hss : ¬(r.superevent_id = s ∧ r.superevent_id ∈ ss ∧
          sqlTimeEq r.alert_time (f r.superevent_id) = true) := by
        rintro ⟨h1, h2, _⟩
        exact hs (h1 ▸ h2)
      rw [if_neg hss]

@[simp] theorem mkEventRow_superevent_id (a b : AlertRow) :
    (mkEventRow a b).superevent_id = a.superevent_id := rfl

theorem countP_pair_join (a : AlertRow) (lb : List AlertRow) (s : String) :
    ((lb.filterMap (fun b =>
        if a.superevent_id == b.superevent_id then some (mkEventRow a b) else none)).countP
      (fun e => e.superevent_id == s))
    = if a.superevent_id = s then lb.countP (fun b => b.superevent_id == s) else 0 := by
  induction lb with
  | nil => simp
  | cons b lb' ihb =>
    simp only [List.filterMap_cons]
    by_cases hab : a.superevent_id = b.superevent_id
    · have hcond : (a.superevent_id == b.superevent_id) = true := by simp [hab]
      rw [if_pos hcond]
      simp only [List.countP_cons, ihb, mkEventRow_superevent_id]
      by_cases has : a.superevent_id = s
      · have hbs : (b.superevent_id == s) = true := by
          rw [beq_iff_eq, ← hab]; exact has
        have hms : (a.superevent_id == s) = true := by simp [has]
        simp [has, hbs, hms]
      · have hbs : (b.superevent_id == s) = false := by
          rw [beq_eq_false_iff_ne, ← hab]; exact has
        have hms : (a.superevent_id == s) = false := by
          rw [beq_eq_false_iff_ne]; exact has
        simp [has, hbs, hms]
    · have hcond : ¬((a.superevent_id == b.superevent_id) = true) := by
        simp [hab]
      rw [if_neg hcond]
      rw [ihb, List.countP_cons]
      by_cases has : a.superevent_id = s
      · have hbs : (b.superevent_id == s) = false := by
          rw [beq_eq_false_iff_ne]
          intro he
          exact hab (by rw [has, he])
        simp [has, hbs]
      · simp [has]

theorem countP_view_product (la lb : List AlertRow) (s : String) :
    ((la.flatMap (fun a => lb.filterMap (fun b =>
        if a.superevent_id == b.superevent_id then some (mkEventRow a b) else none))).countP
      (fun e => e.superevent_id == s))
    = la.countP (fun a => a.superevent_id == s) * lb.countP (fun b => b.superevent_id == s) := by
  induction la with
  | nil => simp
  | cons a la' ih =>
    simp only [List.flatMap_cons, List.countP_append, ih, List.countP_cons,
      countP_pair_join]
    by_cases has : a.superevent_id = s
    · have hbeq : (a.superevent_id == s) = true := by simp [has]
      simp [has, hbeq]
      ring
    · have hbeq : (a.superevent_id == s) = false := by rw [beq_eq_false_iff_ne]; exact has
      simp [has, hbeq]

theorem countP_key_unique (t : List AlertRow) (hnd : t.Nodup)
    (hdist : ∀ r1 ∈ t, ∀ r2 ∈ t, r1.superevent_id = r2.superevent_id →
      r1.alert_time = r2.alert_time → r1 = r2)
    {s : String} {m : ℤ} {rm : AlertRow} (hrm : rm ∈ t) (hrs : rm.superevent_id = s)
    (hrt : rm.alert_time = some m) {g : Option ℤ} (hg : g = some m) :
    t.countP (fun r => r.superevent_id == s && sqlTimeEq r.alert_time g) = 1 := by
  subst hg
  have hle : t.countP (fun r => r.superevent_id == s && sqlTimeEq r.alert_time (some m)) ≤ 1 := by
    refine countP_le_one_of_unique (x := rm) hnd (fun a ha hpa => ?_)
    rw [Bool.and_eq_true, beq_iff_eq] at hpa
    have hat : a.alert_time = some m := by
      cases hq : a.alert_time with
      | none => rw [hq] at hpa; simp [sqlTimeEq] at hpa
      | some y =>
        rw [hq] at hpa
        have := hpa.2
        simp [sqlTimeEq] at this
        rw [this]
    exact hdist a ha rm hrm (by rw [hpa.1, hrs]) (by rw [hat, hrt])
  have hge : 0 < t.countP (fun r => r.superevent_id == s && sqlTimeEq r.alert_time (some m)) := by
    rw [List.countP_pos_iff]
    refine ⟨rm, hrm, ?_⟩
    rw [Bool.and_eq_true, beq_iff_eq]
    exact ⟨hrs, by rw [hrt]; simp [sqlTimeEq]⟩
  omega

/-- C4 (corrected): over any duplicate-free table state whose rows all carry
a non-`NULL` `alert_time`, with alert times distinct within each superevent
(ties on `(superevent_id, alert_time)` are what break the claim — see the
counterexample), the `events` view has exactly one row per superevent_id
possessing a non-retraction alert and none for retraction-only superevents;
every view row for a superevent combines the globally-latest row `a`
(supplying `latest_alert`/`alert_time`/`alert_delta_sec`) with the latest
non-retraction row `b` (supplying `significant` and the science columns). -/
theorem c4_events_view_row_per_superevent (t : List AlertRow) (hnd : t.Nodup)
    (htime : ∀ r ∈ t, r.alert_time ≠ none)
    (hdist : ∀ r1 ∈ t, ∀ r2 ∈ t, r1.superevent_id = r2.superevent_id →
      r1.alert_time = r2.alert_time → r1 = r2) (s : String) :
    ((eventsView t).countP (fun e => e.superevent_id == s) =
      if ∃ r ∈ t, r.superevent_id = s ∧ isNonRetraction r = true then 1 else 0) ∧
    (∀ e ∈ eventsView t, e.superevent_id = s →
      ∃ a ∈ t, ∃ b ∈ t, a.superevent_id = s ∧ b.superevent_id = s ∧
        sqlTimeEq a.alert_time (maxTime t s) = true ∧
        sqlTimeEq b.alert_time (maxTime (nrRows t) s) = true ∧
        isNonRetraction b = true ∧ e = mkEventRow a b) := by
  have hcount : ∀ (t0 : List AlertRow) (ss : List String) (f : String → Option ℤ),
      ss.Nodup →
      (joinLatest t0 (ss.map fun x => (x, f x))).countP (fun r => r.superevent_id == s) =
        if s ∈ ss then
          t0.countP (fun r => r.superevent_id == s && sqlTimeEq r.alert_time (f s)) else 0 :=
    fun t0 ss f hss => countP_joinLatest hss t0 s
  constructor
  · -- the row count
    have hview : (eventsView t).countP (fun e => e.superevent_id == s)
        = (aRows t).countP (fun a => a.superevent_id == s) *
          (bRows t).countP (fun b => b.superevent_id == s) := countP_view_product _ _ _
    have haC : (aRows t).countP (fun a => a.superevent_id == s)
        = if s ∈ eventSids t then
            t.countP (fun r => r.superevent_id == s && sqlTimeEq r.alert_time (maxTime t s))
          else 0 := hcount t (eventSids t) (maxTime t) (List.nodup_dedup _)
    have hbC : (bRows t).countP (fun b => b.superevent_id == s)
        = if s ∈ eventSids (nrRows t) then
            t.countP (fun r => r.superevent_id == s &&
              sqlTimeEq r.alert_time (maxTime (nrRows t) s))
          else 0 := hcount t (eventSids (nrRows t)) (maxTime (nrRows t)) (List.nodup_dedup _)
    rw [hview, haC, hbC]
    by_cases hex : ∃ r ∈ t, r.superevent_id = s ∧ isNonRetraction r = true
    · rw [if_pos hex]
      obtain ⟨r0, hr0, hr0s, hr0nr⟩ := hex
      have hr0nrm : r0 ∈ nrRows t := List.mem_filter.mpr ⟨hr0, hr0nr⟩
      have hsa : s ∈ eventSids t := mem_eventSids.mpr ⟨r0, hr0, hr0s⟩
      have hsb : s ∈ eventSids (nrRows t) := mem_eventSids.mpr ⟨r0, hr0nrm, hr0s⟩
      rw [if_pos hsa, if_pos hsb]
      -- latest non-retraction time is attained by a non-retraction row
      obtain ⟨x0, hx0⟩ : ∃ x0, r0.alert_time = some x0 := by
        cases hq : r0.alert_time with
        | none => exact absurd hq (htime r0 hr0)
        | some y => exact ⟨y, rfl⟩
      have hmemb : x0 ∈ sidTimes (nrRows t) s := mem_sidTimes.mpr ⟨r0, hr0nrm, hr0s, hx0⟩
      obtain ⟨mb, hmb⟩ := maxOf_isSome (l := sidTimes (nrRows t) s)
        (by intro hc; rw [hc] at hmemb; simp at hmemb)
      obtain ⟨rb, hrb, hrbs, hrbt⟩ := mem_sidTimes.mp (maxOf_mem hmb)
      -- the globally latest time is attained
      have hmema : x0 ∈ sidTimes t s := mem_sidTimes.mpr ⟨r0, hr0, hr0s, hx0⟩
      obtain ⟨ma, hma⟩ := maxOf_isSome (l := sidTimes t s)
        (by intro hc; rw [hc] at hmema; simp at hmema)
      obtain ⟨ra, hra, hras, hrat⟩ := mem_sidTimes.mp (maxOf_mem hma)
      have hacnt : t.countP (fun r => r.superevent_id == s &&
          sqlTimeEq r.alert_time (maxTime t s)) = 1 :=
        countP_key_unique t hnd hdist hra hras hrat (g := maxTime t s) hma
      have hbcnt2 : t.countP (fun r => r.superevent_id == s &&
          sqlTimeEq r.alert_time (maxTime (nrRows t) s)) = 1 :=
        countP_key_unique t hnd hdist (List.mem_of_mem_filter hrb) hrbs hrbt
          (g := maxTime (nrRows t) s) hmb
      rw [hacnt, hbcnt2]
    · rw [if_neg hex]
      have hsb : s ∉ eventSids (nrRows t) := by
        intro hc
        obtain ⟨r', hr', hr's⟩ := mem_eventSids.mp hc
        exact hex ⟨r', List.mem_of_mem_filter hr', hr's, (List.mem_filter.mp hr').2⟩
      rw [if_neg hsb]
      omega
  · -- field sourcing
    intro e he hes
    unfold eventsView at he
    rw [List.mem_flatMap] at he
    obtain ⟨a, ha, hein⟩ := he
    rw [List.mem_filterMap] at hein
    obtain ⟨b, hb, hcond⟩ := hein
    by_cases hc : (a.superevent_id == b.superevent_id) = true
    · rw [if_pos hc] at hcond
      injection hcond with hcond
      rw [beq_iff_eq] at hc
      have hae : a ∈ joinLatest t ((eventSids t).map fun x => (x, maxTime t x)) := ha
      have hbe : b ∈ joinLatest t
          ((eventSids (nrRows t)).map fun x => (x, maxTime (nrRows t) x)) := hb
      rw [mem_joinLatest] at hae hbe
      have has : a.superevent_id = s := by rw [← hes, ← hcond, mkEventRow_superevent_id]
      have hbs : b.superevent_id = s := by rw [← hc]; exact has
      -- b is itself a non-retraction row
      have hbt := hbe.2.2
      rw [hbs] at hbt
      obtain ⟨xb, mb, hxb, hmb, hxbm⟩ : ∃ xb mb, b.alert_time = some xb ∧
          maxTime (nrRows t) s = some mb ∧ xb = mb := by
        cases hq1 : b.alert_time with
        | none => rw [hq1] at hbt; simp [sqlTimeEq] at hbt
        | some y =>
          cases hq2 : maxTime (nrRows t) s with
          | none => rw [hq1, hq2] at hbt; simp [sqlTimeEq] at hbt
          | some z =>
            rw [hq1, hq2] at hbt
            simp [sqlTimeEq] at hbt
            exact ⟨y, z, rfl, rfl, hbt⟩
      obtain ⟨rb, hrb, hrbs, hrbt⟩ := mem_sidTimes.mp (maxOf_mem hmb)
      have hbeq : b = rb := by
        refine hdist b hbe.1 rb (List.mem_of_mem_filter hrb) (by rw [hbs, hrbs]) ?_
        rw [hxb, hrbt, hxbm]
      have hbnr : isNonRetraction b = true := by
        rw [hbeq]
        exact (List.mem_filter.mp hrb).2
      refine ⟨a, hae.1, b, hbe.1, has, hbs, ?_, ?_, hbnr, hcond.symm⟩
      · have := hae.2.2
        rw [has] at this
        exact this
      · rw [hxb, hmb, hxbm]
        simp [sqlTimeEq]
    · rw [if_neg hc] at hcond
      exact absurd hcond (by simp)

/-- Two alerts of one superevent sharing an `alert_time` but with different
types — a state the unique key `(superevent_id, alert_time, alert_type)`
permits. -/
def tieRow1 : AlertRow :=
  { emptyRow with
      superevent_id := "S1"
      alert_type := some "INITIAL"
      alert_time := some 100 }

def tieRow2 : AlertRow :=
  { emptyRow with
      superevent_id := "S1"
      alert_type := some "UPDATE"
      alert_time := some 100 }

/-- C4 counterexample: with a tie on `(superevent_id, alert_time)` the view
holds four rows for `S1` (both sub-selects keep both rows and the join
multiplies them), not exactly one, although `S1` has non-retraction
alerts. -/
theorem c4_counterexample :
    (eventsView [tieRow1, tieRow2]).countP (fun e => e.superevent_id == "S1") = 4 ∧
    (∃ r ∈ [tieRow1, tieRow2], r.superevent_id = "S1" ∧ isNonRetraction r = true) ∧
    (4 : ℕ) ≠ 1 := by
  refine ⟨by decide, ⟨tieRow1, by simp, rfl, rfl⟩, by decide⟩

theorem c4_witness :
    (eventsView [mRow]).countP (fun e => e.superevent_id == "M1") =
      if ∃ r ∈ [mRow], r.superevent_id = "M1" ∧ isNonRetraction r = true then 1 else 0 :=
  (c4_events_view_row_per_superevent [mRow] (by decide) (by decide) (by decide) "M1").1

end GpAlerts
